import Mathlib

/-!
Resource reference and storage gateway of TimeSpeakApp/server

A shallow embedding of `src/service/resource/svc.go` and of the resource
resolvers of `src/resolver/resources.resolvers.go`.

* The Mongo collection `resource` is a list of documents in insertion order;
  `FindOne`, `DeleteOne` and `UpdateOne` act on the first document that
  matches their filter, `Find` returns all of them.  Database calls do not
  fail in the model.
* The storage backend (`utils.Service`), the reference extractor, the file
  name check and the user service are not part of the embedded files; their
  behaviour is a parameter (`Env`).  The backend is observed through the keys
  of the objects it holds and through the trace of the calls made on it.
* A Go slice is `Option (List _)`: `none` is the nil slice, which BSON stores
  as `null`; `some xs` is stored as an array.  The filter `"ref": nil` of
  `DeleteResource` matches `null` only.
* A Go `(value, error)` result is an `Except`; state is passed explicitly.
-/

set_option autoImplicit false

/-! ## Object ids -/

namespace primitive

/-- A 12-byte object id, read as a big-endian number (below `16 ^ 24`). -/
abbrev ObjectID := Nat

/-- One lower-case hexadecimal digit. -/
def hexChar (d : Nat) : Char :=
  if d < 10 then Char.ofNat (48 + d) else Char.ofNat (87 + d)

/-- The value of a hexadecimal digit of either case. -/
def hexVal (c : Char) : Option Nat :=
  if 48 ≤ c.toNat ∧ c.toNat ≤ 57 then some (c.toNat - 48)
  else if 97 ≤ c.toNat ∧ c.toNat ≤ 102 then some (c.toNat - 87)
  else if 65 ≤ c.toNat ∧ c.toNat ≤ 70 then some (c.toNat - 55)
  else none

/-- The 24 hexadecimal digits of an id, `ObjectID.Hex()`. -/
def Hex (id : ObjectID) : String :=
  String.mk ((List.range 24).reverse.map fun i => hexChar (id / 16 ^ i % 16))

/-- Parsing of `primitive.ObjectIDFromHex`: exactly 24 hexadecimal digits. -/
def ObjectIDFromHex (s : String) : Option ObjectID :=
  if s.length ≠ 24 then none
  else s.toList.foldl
    (fun acc c =>
      match acc, hexVal c with
      | some a, some v => some (16 * a + v)
      | _, _ => none)
    (some 0)

end primitive

/-! ## Errors -/

/-- The error values the embedded code can return. -/
inductive Error where
  /-- The value `mongo.ErrNoDocuments`. -/
  | ErrNoDocuments
  /-- The value `exception.ErrResourceExist` (Conflict). -/
  | ErrResourceExist
  /-- The value `exception.ErrInvalidID`. -/
  | ErrInvalidID
  /-- The value `exception.ErrResourceHasReference` (HasReference). -/
  | ErrResourceHasReference
  /-- The value `exception.ErrDeleteResource` (DeleteFailed). -/
  | ErrDeleteResource
  /-- The value `exception.ErrResourceSizeLimit` (QuotaExceeded). -/
  | ErrResourceSizeLimit
  /-- The value `exception.ErrInvalidFileName` (InvalidName). -/
  | ErrInvalidFileName
  /-- The error of `user.GetUserFromJwt` when the context carries no user. -/
  | ErrUnauthenticated
  /-- The error of `primitive.ObjectIDFromHex`. -/
  | ErrInvalidHex
  /-- An error reported by the storage backend. -/
  | backend (msg : String)
  /-- An error reported by the user service. -/
  | userService (msg : String)
  deriving DecidableEq, Repr

deriving instance DecidableEq for Except

/-! ## Data model -/

/-- A Go slice: `none` is nil, `some xs` a non-nil slice with elements `xs`. -/
abbrev Slice (α : Type) := Option (List α)

/-- The elements of a slice; the nil slice has none. -/
def Slice.toList {α : Type} (s : Slice α) : List α := s.getD []

/-- Go `len`. -/
def Slice.len {α : Type} (s : Slice α) : Nat := s.toList.length

/-- Go `append(s, x)`: never nil. -/
def Slice.append {α : Type} (s : Slice α) (x : α) : Slice α := some (s.toList ++ [x])

/-- The document type `resource.Resource`, with the fields the service uses. -/
structure Resource where
  ObjectID : primitive.ObjectID
  Uid : primitive.ObjectID
  Path : String
  Size : Int
  Ref : Slice primitive.ObjectID
  CreateTime : Int
  UpdateTime : Int
  deriving DecidableEq, Repr

/-- The token `utils.UploadTokenPayload`: the resource id and what the backend issued. -/
structure UploadTokenPayload where
  ID : String
  credentials : String
  deriving DecidableEq, Repr

/-- The part of `user.User` the resolvers read. -/
structure User where
  ObjectID : primitive.ObjectID
  deriving DecidableEq, Repr

/-- The plan returned by the `Subscribe` lookup. -/
structure Subscribe where
  Capacity : Int
  deriving DecidableEq, Repr

/-- The request context: the user of its JWT, when it has one. -/
structure Ctx where
  jwtUser : Option primitive.ObjectID
  deriving DecidableEq, Repr

/-- A call made on the storage backend. -/
inductive StoCall where
  | Delete (key : String)
  | GetToken (name : String)
  deriving DecidableEq, Repr

/-- The shared state the service works on. -/
structure World where
  /-- The Mongo collection `resource`, in insertion order. -/
  docs : List Resource
  /-- The keys of the objects the storage backend holds. -/
  objects : List String
  /-- The calls made on the storage backend so far. -/
  stoCalls : List StoCall
  /-- The keys present in the cache. -/
  cache : List String
  /-- The id `primitive.NewObjectID()` returns next. -/
  nextID : primitive.ObjectID
  deriving DecidableEq, Repr

/-- Collaborators that are not part of the embedded files. -/
structure Env where
  /-- The value of `time.Now().Unix()`. -/
  now : Int
  /-- The reference extractor `utils.PickupReferences`. -/
  PickupReferences : String → List String
  /-- The name check `utils.CheckFileName`. -/
  CheckFileName : String → Bool × String
  /-- The backend `Delete`: its `(bool, error)` result and the objects left. -/
  stoDelete : List String → String → (Bool × Option String) × List String
  /-- The backend `GetUrl`. -/
  stoGetUrl : String → Except String String
  /-- The backend `GetToken`. -/
  stoGetToken : String → Except String UploadTokenPayload
  /-- The user lookup `userSvc.GetUser`. -/
  GetUser : primitive.ObjectID → Except Error User
  /-- The plan lookup `r.User().Subscribe`. -/
  Subscribe : User → Except Error Subscribe

/-- Ids are unique in a collection: Mongo enforces it for `_id`. -/
def UniqueIDs (docs : List Resource) : Prop :=
  docs.Pairwise (fun a b => a.ObjectID ≠ b.ObjectID)

/-- Ids are unique in the collection and were all handed out before `nextID`. -/
def World.WF (w : World) : Prop :=
  UniqueIDs w.docs ∧ ∀ r ∈ w.docs, r.ObjectID < w.nextID

/-! ## Mongo collection operations -/

namespace mongo

/-- The first document matching the filter. -/
def FindOne (docs : List Resource) (p : Resource → Bool) : Option Resource :=
  docs.find? p

/-- All documents matching the filter. -/
def Find (docs : List Resource) (p : Resource → Bool) : List Resource :=
  docs.filter p

/-- Removes the first document matching the filter, if any. -/
def DeleteOne (docs : List Resource) (p : Resource → Bool) : List Resource :=
  docs.eraseP p

/-- Applies the update to the first document matching the filter, if any. -/
def UpdateOne (p : Resource → Bool) (f : Resource → Resource) : List Resource → List Resource
  | [] => []
  | r :: rs => if p r then f r :: rs else r :: UpdateOne p f rs

/-- Appends a document. -/
def InsertOne (docs : List Resource) (r : Resource) : List Resource :=
  docs ++ [r]

end mongo

/-! ## Helpers of the service -/

namespace opts

/-- Modelled from the spec: the package `opts` is not in the embedded files;
`opts.With(key, value)` sets `key` to `value` in the `$set` document.  The
service uses it with the keys `ref` (upsertReference, removeReference) and
`size` (finalizeSize). -/
inductive Option where
  | ref (v : Slice primitive.ObjectID)
  | size (v : Int)
  deriving DecidableEq, Repr

/-- The option applied to the `$set` document, read as an update of a resource. -/
def Option.apply (o : Option) (r : Resource) : Resource :=
  match o with
  | .ref v => { r with Ref := v }
  | .size v => { r with Size := v }

end opts

/-- Modelled from the spec: `user.GetUserFromJwt` is not in the embedded files;
it returns the owner of the request context and fails when there is none. -/
def user.GetUserFromJwt (ctx : Ctx) : Except Error primitive.ObjectID :=
  match ctx.jwtUser with
  | some id => .ok id
  | none => .error .ErrUnauthenticated

/-- Modelled from the spec: `UniqueArr` is not in the embedded files; it
removes duplicate ids (set semantics, order not significant). -/
def UniqueArr (arr : List primitive.ObjectID) : List primitive.ObjectID :=
  arr.dedup

/-- Modelled from the spec: `RemoveFromArr` is not in the embedded files; it
removes the id from the array, and an absent id is a no-op.  Whether an empty
result is nil is not fixed by the spec; the caller stores a non-nil slice. -/
def RemoveFromArr (arr : List primitive.ObjectID) (id : primitive.ObjectID) :
    List primitive.ObjectID :=
  arr.filter (fun x => x ≠ id)

/-- Modelled from the spec: `DiffArray` is not in the embedded files; it
returns `(old − new, new − old)`. -/
def DiffArray (oldRefs newRefs : List String) : List String × List String :=
  (oldRefs.filter (fun x => x ∉ newRefs), newRefs.filter (fun x => x ∉ oldRefs))

/-- The backend call `s.sto.Delete(ctx, key)`, recorded in the trace. -/
def sto.Delete (env : Env) (key : String) (w : World) : (Bool × Option String) × World :=
  let out := env.stoDelete w.objects key
  (out.1, { w with objects := out.2, stoCalls := w.stoCalls ++ [StoCall.Delete key] })

/-- The backend call `storageSvc.GetToken(ctx, name)`, recorded in the trace. -/
def sto.GetToken (env : Env) (name : String) (w : World) :
    Except String UploadTokenPayload × World :=
  (env.stoGetToken name, { w with stoCalls := w.stoCalls ++ [StoCall.GetToken name] })

/-- The cache call `s.c.Del(ctx, key)`; its outcome is ignored by the callers. -/
def cache.Del (key : String) (w : World) : World :=
  { w with cache := w.cache.filter (fun k => k ≠ key) }

/-- The cache key `fmt.Sprintf("Resource-%s", id.Hex())`. -/
def resourceKey (id : primitive.ObjectID) : String :=
  "Resource-" ++ primitive.Hex id

/-- Two's complement wrap-around of `int64` arithmetic. -/
def wrapInt64 (x : Int) : Int :=
  (x + 2 ^ 63) % 2 ^ 64 - 2 ^ 63

namespace strings

/-- The scan of `ReplaceAll` for a non-empty `old`: `skip` counts the
characters of a match still to be dropped. -/
def replaceGo (old new : List Char) : Nat → List Char → List Char
  | _, [] => []
  | skip + 1, _ :: cs => replaceGo old new skip cs
  | 0, c :: cs =>
    if old.isPrefixOf (c :: cs) then new ++ replaceGo old new (old.length - 1) cs
    else c :: replaceGo old new 0 cs

/-- Go `strings.ReplaceAll(s, old, new)`: non-overlapping matches from the
left; an empty `old` matches before every character and at the end. -/
def ReplaceAll (s old new : String) : String :=
  if old.toList = [] then
    String.mk (new.toList ++ s.toList.flatMap (fun c => c :: new.toList))
  else String.mk (replaceGo old.toList new.toList 0 s.toList)

end strings

/-! ## The resource service `Svc` -/

namespace Svc

/-- Embedding of `Svc.CheckResourceExist`. -/
def CheckResourceExist (ctx : Ctx) (path : String) (w : World) :
    Except Error (Option Resource) :=
  match user.GetUserFromJwt ctx with
  | .error err => .error err
  | .ok id => .ok (mongo.FindOne w.docs (fun r => r.Path = path ∧ r.Uid = id))

/-- Embedding of `Svc.NewResource`. -/
def NewResource (env : Env) (ctx : Ctx) (path : String) (size : Int) (w : World) :
    Except Error String × World :=
  match CheckResourceExist ctx path w with
  | .error err => (.error err, w)
  | .ok (some exist) =>
    if exist.Size > 0 then (.error .ErrResourceExist, w)
    else (.ok (primitive.Hex exist.ObjectID), w)
  | .ok none =>
    match user.GetUserFromJwt ctx with
    | .error err => (.error err, w)
    | .ok id =>
      let resource : Resource :=
        { ObjectID := w.nextID, Uid := id, Path := path, Size := size, Ref := none,
          CreateTime := env.now, UpdateTime := env.now }
      (.ok (primitive.Hex resource.ObjectID),
        { w with docs := mongo.InsertOne w.docs resource, nextID := w.nextID + 1 })

/-- Embedding of `Svc.UpdateResource`. -/
def UpdateResource (env : Env) (id : primitive.ObjectID) (os : List opts.Option)
    (w : World) : Except Error Unit × World :=
  let toUpdate : Resource → Resource :=
    fun r => os.foldl (fun acc o => o.apply acc) { r with UpdateTime := env.now }
  let w1 := { w with docs := mongo.UpdateOne (fun r => r.ObjectID = id) toUpdate w.docs }
  (.ok (), cache.Del (resourceKey id) w1)

/-- Embedding of `Svc.GetResource`. -/
def GetResource (ctx : Ctx) (id : primitive.ObjectID) (w : World) : Except Error Resource :=
  match user.GetUserFromJwt ctx with
  | .error err => .error err
  | .ok uid =>
    match mongo.FindOne w.docs (fun r => r.Uid = uid ∧ r.ObjectID = id) with
    | none => .error .ErrNoDocuments
    | some resource => .ok resource

/-- Embedding of `Svc.GetResourceByPath`. -/
def GetResourceByPath (ctx : Ctx) (path : String) (w : World) : Except Error Resource :=
  match user.GetUserFromJwt ctx with
  | .error err => .error err
  | .ok uid =>
    match mongo.FindOne w.docs (fun r => r.Uid = uid ∧ r.Path = path) with
    | none => .error .ErrNoDocuments
    | some resource => .ok resource

/-- Embedding of `Svc.InsertOrUpdateResource`.  In the branch for a missing
resource the source declares a second `err` inside the inner block, so the
`return err` that closes the outer block returns `mongo.ErrNoDocuments`. -/
def InsertOrUpdateResource (env : Env) (ctx : Ctx) (fileName memoryID : String)
    (w : World) : Except Error Unit × World :=
  match GetResourceByPath ctx fileName w with
  | .error err =>
    if err = .ErrNoDocuments then
      match NewResource env ctx fileName 0 w with
      | (.error err1, w1) => (.error err1, w1)
      | (.ok resource, w1) =>
        match primitive.ObjectIDFromHex resource with
        | none => (.error .ErrInvalidID, w1)
        | some _ => (.error err, w1)
    else (.error err, w)
  | .ok res =>
    match primitive.ObjectIDFromHex memoryID with
    | none => (.error .ErrInvalidHex, w)
    | some memory =>
      let refArray : Slice primitive.ObjectID :=
        some (UniqueArr (Slice.append res.Ref memory).toList)
      UpdateResource env res.ObjectID [opts.Option.ref refArray] w

/-- Embedding of `Svc.UpdateResourceSize`. -/
def UpdateResourceSize (env : Env) (ctx : Ctx) (fileName : String) (size : Int)
    (w : World) : Except Error Unit × World :=
  match GetResourceByPath ctx fileName w with
  | .error err => (.error err, w)
  | .ok res => UpdateResource env res.ObjectID [opts.Option.size size] w

/-- Embedding of `Svc.RemoveResourceReference`. -/
def RemoveResourceReference (env : Env) (ctx : Ctx) (fileName memoryID : String)
    (w : World) : Except Error Unit × World :=
  match GetResourceByPath ctx fileName w with
  | .error err =>
    if err = .ErrNoDocuments then (.ok (), w) else (.error err, w)
  | .ok res =>
    match primitive.ObjectIDFromHex memoryID with
    | none => (.error .ErrInvalidHex, w)
    | some memory =>
      let refArray : Slice primitive.ObjectID := some (RemoveFromArr res.Ref.toList memory)
      UpdateResource env res.ObjectID [opts.Option.ref refArray] w

/-- The first loop of `Svc.UpdateReferences`. -/
def insertLoop (env : Env) (ctx : Ctx) (memoryID : String) :
    List String → World → Except Error Unit × World
  | [], w => (.ok (), w)
  | ref :: rest, w =>
    match InsertOrUpdateResource env ctx ref memoryID w with
    | (.error err, w1) => (.error err, w1)
    | (.ok _, w1) => insertLoop env ctx memoryID rest w1

/-- The second loop of `Svc.UpdateReferences`. -/
def removeLoop (env : Env) (ctx : Ctx) (memoryID : String) :
    List String → World → Except Error Unit × World
  | [], w => (.ok (), w)
  | ref :: rest, w =>
    match RemoveResourceReference env ctx ref memoryID w with
    | (.error err, w1) => (.error err, w1)
    | (.ok _, w1) => removeLoop env ctx memoryID rest w1

/-- Embedding of `Svc.UpdateReferences`.  As in the source, the second loop is
guarded by `len(removeReferences) > 0` and ranges over `insertReferences`. -/
def UpdateReferences (env : Env) (ctx : Ctx) (oldContent newContent memoryID : String)
    (w : World) : Except Error Unit × World :=
  let oldReferences := env.PickupReferences oldContent
  let newReferences := env.PickupReferences newContent
  let removeReferences := (DiffArray oldReferences newReferences).1
  let insertReferences := (DiffArray oldReferences newReferences).2
  match insertLoop env ctx memoryID insertReferences w with
  | (.error err, w1) => (.error err, w1)
  | (.ok _, w1) =>
    if removeReferences.length > 0 then removeLoop env ctx memoryID insertReferences w1
    else (.ok (), w1)

/-- Embedding of `Svc.DeleteResource`: the record is deleted under the filter
`uid, _id, ref: nil`, then the backend object is deleted whatever was matched. -/
def DeleteResource (env : Env) (ctx : Ctx) (id : primitive.ObjectID) (w : World) :
    Except Error Unit × World :=
  match user.GetUserFromJwt ctx with
  | .error err => (.error err, w)
  | .ok uid =>
    let docs1 := mongo.DeleteOne w.docs (fun r => r.Uid = uid ∧ r.ObjectID = id ∧ r.Ref = none)
    let w1 := { w with docs := docs1 }
    match sto.Delete env (primitive.Hex id) w1 with
    | ((_, some err), w2) => (.error (.backend err), w2)
    | ((false, none), w2) => (.error .ErrDeleteResource, w2)
    | ((true, none), w2) => (.ok (), cache.Del (resourceKey id) w2)

/-- Embedding of `Svc.GetResourceUsed`: the `int64` sum of the sizes. -/
def GetResourceUsed (uid : primitive.ObjectID) (w : World) : Except Error Int :=
  .ok ((mongo.Find w.docs (fun r => r.Uid = uid)).foldl
    (fun size v => wrapInt64 (size + v.Size)) 0)

/-- The loop of `Svc.InsertResourceUrl`. -/
def insertUrlLoop (env : Env) : List String → String → Except Error String
  | [], content => .ok content
  | ref :: rest, content =>
    match env.stoGetUrl ref with
    | .error err => .error (.backend err)
    | .ok url => insertUrlLoop env rest (strings.ReplaceAll content ref url)

/-- Embedding of `Svc.InsertResourceUrl`. -/
def InsertResourceUrl (env : Env) (content : String) : Except Error String :=
  insertUrlLoop env (env.PickupReferences content) content

end Svc

/-! ## The resolvers -/

/-- Modelled from the spec: the resolver `userResolver.Used` is not in the
embedded files; it is `totalUsedBytes` of the user, `Svc.GetResourceUsed`. -/
def userResolver.Used (u : User) (w : World) : Except Error Int :=
  Svc.GetResourceUsed u.ObjectID w

namespace mutationResolver

/-- Embedding of `mutationResolver.DeleteResource`. -/
def DeleteResource (env : Env) (ctx : Ctx) (input : String) (w : World) :
    Except Error Bool × World :=
  match primitive.ObjectIDFromHex input with
  | none => (.error .ErrInvalidID, w)
  | some id =>
    match Svc.GetResource ctx id w with
    | .error err => (.error err, w)
    | .ok res =>
      if res.Ref.len > 0 then (.error .ErrResourceHasReference, w)
      else
        match Svc.DeleteResource env ctx id w with
        | (.error err, w1) => (.error err, w1)
        | (.ok _, w1) => (.ok true, w1)

/-- Embedding of `mutationResolver.GetToken`. -/
def GetToken (env : Env) (ctx : Ctx) (fileName : String) (w : World) :
    Except Error UploadTokenPayload × World :=
  match env.CheckFileName fileName with
  | (false, _) => (.error .ErrInvalidFileName, w)
  | (true, newFileName) =>
    match user.GetUserFromJwt ctx with
    | .error err => (.error err, w)
    | .ok id =>
      match env.GetUser id with
      | .error err => (.error err, w)
      | .ok u =>
        match userResolver.Used u w with
        | .error err => (.error err, w)
        | .ok used =>
          match env.Subscribe u with
          | .error err => (.error err, w)
          | .ok subscribe =>
            if used > subscribe.Capacity then (.error .ErrResourceSizeLimit, w)
            else
              match sto.GetToken env newFileName w with
              | (.error err, w1) => (.error (.backend err), w1)
              | (.ok tok, w1) =>
                match Svc.NewResource env ctx newFileName 0 w1 with
                | (.error err, w2) => (.error err, w2)
                | (.ok res, w2) => (.ok { tok with ID := res }, w2)

end mutationResolver

/-! ## A concrete environment for the scenarios -/

namespace utils

/-- The scanner behind `PickupReferences`: state 0 is plain text, 1 follows
`!`, 2 is inside the alternative text, 3 follows its `]`, 4 is inside the
path, whose characters are collected in reverse in `acc`. -/
def pickupScan : Nat → List Char → List Char → List String
  | _, _, [] => []
  | 0, acc, c :: cs => if c = '!' then pickupScan 1 acc cs else pickupScan 0 acc cs
  | 1, acc, c :: cs =>
    if c = '[' then pickupScan 2 acc cs
    else if c = '!' then pickupScan 1 acc cs
    else pickupScan 0 acc cs
  | 2, acc, c :: cs => if c = ']' then pickupScan 3 acc cs else pickupScan 2 acc cs
  | 3, acc, c :: cs =>
    if c = '(' then pickupScan 4 [] cs
    else if c = '!' then pickupScan 1 acc cs
    else pickupScan 0 acc cs
  | _ + 4, acc, c :: cs =>
    if c = ')' then String.mk acc.reverse :: pickupScan 0 [] cs
    else pickupScan 4 (c :: acc) cs

/-- Modelled from the spec: `utils.PickupReferences` is not in the embedded
files; it returns the distinct path tokens of the embedded-media markers
`![alt](path)` of the content. -/
def PickupReferences (content : String) : List String :=
  (pickupScan 0 [] content.toList).dedup

end utils

/-- A backend that deletes the object and reports success, resolves every
URL and issues a token for every name; every user has a plan of 1000 bytes. -/
def scenarioEnv : Env where
  now := 1700000000
  PickupReferences := utils.PickupReferences
  CheckFileName := fun name => (decide (name ≠ ""), name)
  stoDelete := fun objects key => ((true, none), objects.filter (fun k => k ≠ key))
  stoGetUrl := fun ref => .ok ("https://cdn.test/" ++ ref)
  stoGetToken := fun name => .ok { ID := "", credentials := "session-" ++ name }
  GetUser := fun id => .ok { ObjectID := id }
  Subscribe := fun _ => .ok { Capacity := 1000 }

/-- The scenario backend, except that `Delete` reports failure and keeps the object. -/
def failingDeleteEnv : Env :=
  { scenarioEnv with stoDelete := fun objects _ => ((false, none), objects) }

/-- The scenario backend, except that `Delete` returns an error and keeps the object. -/
def erroringDeleteEnv : Env :=
  { scenarioEnv with stoDelete := fun objects _ => ((false, some "timeout"), objects) }

/-- The scenario backend, except that the URL of `res2.png` cannot be resolved. -/
def unresolvedUrlEnv : Env :=
  { scenarioEnv with
    stoGetUrl := fun ref =>
      if ref = "res2.png" then .error "no such object" else .ok ("https://cdn.test/" ++ ref) }

/-- The caller of the scenarios, user 7. -/
def alice : Ctx := { jwtUser := some 7 }

/-- The hexadecimal form of memory id 10. -/
def memoryHex : String := "00000000000000000000000a"

/-- A never referenced resource of the given owner. -/
def reserved (id uid : primitive.ObjectID) (path : String) (size : Int) : Resource :=
  { ObjectID := id, Uid := uid, Path := path, Size := size, Ref := none,
    CreateTime := 1600000000, UpdateTime := 1600000000 }

/-- The hexadecimal form of object id 1. -/
def hexOne : String := "000000000000000000000001"

/-- The hexadecimal form of object id 2. -/
def hexTwo : String := "000000000000000000000002"

/-- A world whose only record is the given one; the backend holds the object of id 1. -/
def single (r : Resource) : World :=
  { docs := [r], objects := [hexOne], stoCalls := [], cache := [], nextID := 2 }

/-- Resource 1 of user 7, 5 bytes, embedded by memory 10. -/
def referenced : Resource :=
  { reserved 1 7 "a.png" 5 with Ref := some [10] }

/-- Resource 2 of user 8, 9 bytes, never referenced; user 7 does not own it. -/
def foreign : Resource := reserved 2 8 "b.png" 9

/-- A world with resource 1 of user 7, embedded by memory 10, and resource 2
of user 8; the backend holds the objects of both. -/
def shared : World :=
  { docs := [referenced, foreign], objects := [hexOne, hexTwo], stoCalls := [],
    cache := [], nextID := 3 }

/-- A world with no record at all. -/
def blank : World :=
  { docs := [], objects := [], stoCalls := [], cache := [], nextID := 1 }

/-- User 7 owns `res1.png`, embedded by memory 10, and `res2.png`, not embedded. -/
def album : World :=
  { docs := [{ reserved 1 7 "res1.png" 5 with Ref := some [10] }, reserved 2 7 "res2.png" 6],
    objects := [], stoCalls := [], cache := [], nextID := 3 }

/-- The ref of the first record of the caller for the path, `[]` when there is none. -/
def refOf (ctx : Ctx) (path : String) (w : World) : List primitive.ObjectID :=
  match Svc.GetResourceByPath ctx path w with
  | .ok r => r.Ref.toList
  | .error _ => []

/-- The quota figure in the words of the spec: the sum of `size` over all the
resources of the owner. -/
def totalUsedBytes (uid : primitive.ObjectID) (w : World) : Int :=
  ((w.docs.filter (fun r => r.Uid = uid)).map (fun r => r.Size)).sum

/-- The world once the backend has been asked for a token for the name. -/
def tokenRequested (name : String) (w : World) : World :=
  { w with stoCalls := w.stoCalls ++ [StoCall.GetToken name] }

/-- User 7 holds one finalized resource of the given size. -/
def holding (size : Int) : World := single (reserved 1 7 "big.bin" size)

/-! ## Lemmas on the collection operations -/

theorem find?_of_unique_id {docs : List Resource} {p : Resource → Bool} {r : Resource}
    (hu : UniqueIDs docs) (hr : r ∈ docs) (hp : p r = true)
    (hid : ∀ x, p x = true → x.ObjectID = r.ObjectID) : docs.find? p = some r := by
  induction docs with
  | nil => simp at hr
  | cons d ds ih =>
    unfold UniqueIDs at hu
    rw [List.pairwise_cons] at hu
    by_cases hd : p d = true
    · have hdr : d.ObjectID = r.ObjectID := hid d hd
      rcases List.mem_cons.1 hr with h | h
      · subst h; simp [List.find?, hd]
      · exact absurd hdr (hu.1 r h)
    · rcases List.mem_cons.1 hr with h | h
      · subst h; exact absurd hp hd
      · simp only [List.find?, Bool.not_eq_true] at hd ⊢
        rw [hd]
        exact ih hu.2 h

theorem eraseP_no_id {docs : List Resource} {p : Resource → Bool} {r : Resource}
    (hu : UniqueIDs docs) (hr : r ∈ docs) (hp : p r = true)
    (hid : ∀ x, p x = true → x.ObjectID = r.ObjectID) :
    ∀ x ∈ docs.eraseP p, x.ObjectID ≠ r.ObjectID := by
  induction docs with
  | nil => simp at hr
  | cons d ds ih =>
    unfold UniqueIDs at hu
    rw [List.pairwise_cons] at hu
    intro x hx
    by_cases hd : p d = true
    · rw [List.eraseP_cons_of_pos hd] at hx
      have hdr : d.ObjectID = r.ObjectID := hid d hd
      rcases List.mem_cons.1 hr with h | h
      · subst h; exact fun e => hu.1 x hx e.symm
      · exact absurd hdr (hu.1 r h)
    · rw [List.eraseP_cons_of_neg hd] at hx
      rcases List.mem_cons.1 hr with h | h
      · subst h; exact absurd hp hd
      · rcases List.mem_cons.1 hx with h2 | h2
        · subst h2; exact hu.1 r h
        · exact ih hu.2 h x h2

theorem getResource_of_owned {w : World} {uid id : primitive.ObjectID} {r : Resource}
    (hu : UniqueIDs w.docs) (hr : r ∈ w.docs) (hid : r.ObjectID = id) (hown : r.Uid = uid) :
    Svc.GetResource { jwtUser := some uid } id w = .ok r := by
  have hf : w.docs.find? (fun x => decide (x.Uid = uid ∧ x.ObjectID = id)) = some r := by
    apply find?_of_unique_id hu hr
    · simp [hid, hown]
    · intro x hx
      simp at hx
      rw [hx.2, hid]
  simp only [Svc.GetResource, user.GetUserFromJwt, mongo.FindOne, hf]

theorem find?_first {docs pre post : List Resource} {p : Resource → Bool} {r : Resource}
    (hd : docs = pre ++ r :: post) (hpre : ∀ x ∈ pre, p x = false) (hp : p r = true) :
    docs.find? p = some r := by
  subst hd
  induction pre with
  | nil => simp [List.find?, hp]
  | cons d ds ih =>
    have hdf : p d = false := hpre d (List.mem_cons_self d ds)
    simp only [List.cons_append, List.find?, hdf]
    exact ih (fun x hx => hpre x (List.mem_cons_of_mem d hx))

theorem find?_snoc {docs : List Resource} {p : Resource → Bool} {r : Resource}
    (hf : docs.find? p = none) (hp : p r = true) : (docs ++ [r]).find? p = some r := by
  rw [List.find?_append, hf]
  simp [List.find?, hp]

theorem updateOne_find {docs : List Resource} {p : Resource → Bool} {f : Resource → Resource}
    {e : Resource} (hu : UniqueIDs docs) (hf : docs.find? p = some e)
    (hpf : ∀ x, p (f x) = p x) :
    (mongo.UpdateOne (fun r => decide (r.ObjectID = e.ObjectID)) f docs).find? p =
      some (f e) := by
  induction docs with
  | nil => simp at hf
  | cons d ds ih =>
    unfold UniqueIDs at hu
    rw [List.pairwise_cons] at hu
    by_cases hd : p d = true
    · have hde : d = e := by simpa [List.find?, hd] using hf
      subst hde
      have hpfd : p (f d) = true := by rw [hpf, hd]
      simp [mongo.UpdateOne, List.find?, hpfd]
    · have hdf : p d = false := by simpa using hd
      have hf2 : ds.find? p = some e := by simpa [List.find?, hdf] using hf
      have hmem : e ∈ ds := List.mem_of_find?_eq_some hf2
      have hne : d.ObjectID ≠ e.ObjectID := hu.1 e hmem
      simp only [mongo.UpdateOne, hne, decide_False, Bool.false_eq_true, if_false,
        List.find?, hdf]
      exact ih hu.2 hf2

theorem newResource_eq (env : Env) (w : World) (uid : primitive.ObjectID) (path : String)
    (size : Int) :
    Svc.NewResource env { jwtUser := some uid } path size w =
      match w.docs.find? (fun r => decide (r.Path = path ∧ r.Uid = uid)) with
      | some exist =>
        if exist.Size > 0 then (.error .ErrResourceExist, w)
        else (.ok (primitive.Hex exist.ObjectID), w)
      | none =>
        (.ok (primitive.Hex w.nextID),
          { w with
            docs := w.docs ++ [⟨w.nextID, uid, path, size, none, env.now, env.now⟩],
            nextID := w.nextID + 1 }) := by
  simp only [Svc.NewResource, Svc.CheckResourceExist, user.GetUserFromJwt, mongo.FindOne,
    mongo.InsertOne]
  cases w.docs.find? (fun r => decide (r.Path = path ∧ r.Uid = uid)) <;> rfl

theorem filter_swap (uid : primitive.ObjectID) (path : String) :
    (fun r : Resource => decide (r.Uid = uid ∧ r.Path = path)) =
      (fun r : Resource => decide (r.Path = path ∧ r.Uid = uid)) := by
  funext r
  simp [and_comm]

theorem uniqueIDs_insert {docs : List Resource} {n : primitive.ObjectID} {r : Resource}
    (hu : UniqueIDs docs) (hlt : ∀ x ∈ docs, x.ObjectID < n) (hr : r.ObjectID = n) :
    UniqueIDs (docs ++ [r]) := by
  unfold UniqueIDs at hu ⊢
  rw [List.pairwise_append]
  refine ⟨hu, List.pairwise_singleton _ _, ?_⟩
  intro a ha b hb
  rw [List.mem_singleton] at hb
  subst hb
  rw [hr]
  exact Nat.ne_of_lt (hlt a ha)

/-- After a record of the caller exists for the path, setting a positive size
succeeds and the next reservation is refused. -/
theorem conflict_after_size {env : Env} {w : World} {uid : primitive.ObjectID}
    {path : String} {e : Resource} {size : Int} (hu : UniqueIDs w.docs)
    (hf : w.docs.find? (fun r => decide (r.Path = path ∧ r.Uid = uid)) = some e)
    (hs : 0 < size) :
    ∃ w2, Svc.UpdateResourceSize env { jwtUser := some uid } path size w = (.ok (), w2) ∧
      Svc.NewResource env { jwtUser := some uid } path 0 w2 = (.error .ErrResourceExist, w2) := by
  have hf2 := updateOne_find
    (f := fun r => { r with UpdateTime := env.now, Size := size }) hu hf (fun x => rfl)
  refine ⟨cache.Del (resourceKey e.ObjectID)
    ⟨mongo.UpdateOne (fun r => decide (r.ObjectID = e.ObjectID))
      (fun r => { r with UpdateTime := env.now, Size := size }) w.docs,
      w.objects, w.stoCalls, w.cache, w.nextID⟩, ?_, ?_⟩
  · simp only [Svc.UpdateResourceSize, Svc.GetResourceByPath, user.GetUserFromJwt,
      mongo.FindOne, filter_swap, hf, Svc.UpdateResource, List.foldl, opts.Option.apply]
  · rw [newResource_eq]
    simp only [cache.Del, hf2]
    simp [hs]

theorem wrapInt64_add_left (a b : Int) : wrapInt64 (wrapInt64 a + b) = wrapInt64 (a + b) := by
  unfold wrapInt64
  omega

theorem wrapInt64_of_range (a : Int) (hlo : -(2 ^ 63) ≤ a) (hhi : a < 2 ^ 63) :
    wrapInt64 a = a := by
  unfold wrapInt64
  omega

theorem foldl_wrapInt64 (l : List Resource) (acc : Int) :
    l.foldl (fun size v => wrapInt64 (size + v.Size)) (wrapInt64 acc) =
      wrapInt64 (acc + (l.map (fun r => r.Size)).sum) := by
  induction l generalizing acc with
  | nil => simp
  | cons x xs ih =>
    simp only [List.foldl, List.map, List.sum_cons]
    rw [wrapInt64_add_left, ih, add_assoc]

theorem getResourceUsed_eq (uid : primitive.ObjectID) (w : World) :
    Svc.GetResourceUsed uid w = .ok (wrapInt64 (totalUsedBytes uid w)) := by
  have h := foldl_wrapInt64 (w.docs.filter (fun r => decide (r.Uid = uid))) 0
  have h0 : wrapInt64 0 = 0 := by decide
  rw [h0, zero_add] at h
  simp only [Svc.GetResourceUsed, mongo.Find, totalUsedBytes, h]

theorem newResource_error {env : Env} {w w2 : World} {uid : primitive.ObjectID}
    {path : String} {e : Error}
    (h : Svc.NewResource env { jwtUser := some uid } path 0 w = (.error e, w2)) :
    e = .ErrResourceExist := by
  rw [newResource_eq] at h
  cases hf : w.docs.find? (fun r => decide (r.Path = path ∧ r.Uid = uid)) with
  | some exist =>
    rw [hf] at h
    by_cases hs : exist.Size > 0
    · simp only [hs, if_true, Prod.mk.injEq, Except.error.injEq] at h
      exact h.1.symm
    · simp [hs] at h
  | none =>
    rw [hf] at h
    simp at h

theorem newResource_record {env : Env} {w w2 : World} {uid : primitive.ObjectID}
    {path rid : String}
    (h : Svc.NewResource env { jwtUser := some uid } path 0 w = (.ok rid, w2)) :
    ∃ r ∈ w2.docs, r.Uid = uid ∧ r.Path = path ∧ primitive.Hex r.ObjectID = rid := by
  rw [newResource_eq] at h
  cases hf : w.docs.find? (fun r => decide (r.Path = path ∧ r.Uid = uid)) with
  | some exist =>
    rw [hf] at h
    have hmem := List.mem_of_find?_eq_some hf
    have hp := List.find?_some hf
    simp only [decide_eq_true_eq] at hp
    by_cases hs : exist.Size > 0
    · simp [hs] at h
    · simp only [hs, if_false, Prod.mk.injEq, Except.ok.injEq] at h
      obtain ⟨h1, h2⟩ := h
      subst h2
      exact ⟨exist, hmem, hp.2, hp.1, h1⟩
  | none =>
    rw [hf] at h
    simp only [Prod.mk.injEq, Except.ok.injEq] at h
    obtain ⟨h1, h2⟩ := h
    subst h2
    exact ⟨⟨w.nextID, uid, path, 0, none, env.now, env.now⟩, by simp, rfl, rfl, h1⟩

theorem getToken_eq {env : Env} {w : World} {uid : primitive.ObjectID}
    {fileName newFileName : String} {u : User} {subscribe : Subscribe}
    (hname : env.CheckFileName fileName = (true, newFileName))
    (huser : env.GetUser uid = .ok u) (hu : u.ObjectID = uid)
    (hplan : env.Subscribe u = .ok subscribe) :
    mutationResolver.GetToken env { jwtUser := some uid } fileName w =
      if wrapInt64 (totalUsedBytes uid w) > subscribe.Capacity then
        (.error .ErrResourceSizeLimit, w)
      else
        match env.stoGetToken newFileName with
        | .error err => (.error (.backend err), tokenRequested newFileName w)
        | .ok tok =>
          match Svc.NewResource env { jwtUser := some uid } newFileName 0
            (tokenRequested newFileName w) with
          | (.error err, w2) => (.error err, w2)
          | (.ok res, w2) => (.ok { tok with ID := res }, w2) := by
  simp only [mutationResolver.GetToken, hname, user.GetUserFromJwt, huser, userResolver.Used,
    getResourceUsed_eq, hu, hplan, sto.GetToken, tokenRequested]
  split
  · rfl
  · cases env.stoGetToken newFileName <;> rfl

/-! ## The claims -/

/-- C1: for a record owned by the caller, the delete mutation succeeds only
when the ref of the record is empty, and with a non-empty ref it fails with
`ErrResourceHasReference` and changes nothing: neither the record nor the
objects of the backend (nor the cache, nor the trace of backend calls). -/
theorem delete_refused_when_referenced (env : Env) (w : World)
    (uid id : primitive.ObjectID) (input : String) (r : Resource)
    (hu : UniqueIDs w.docs) (hin : primitive.ObjectIDFromHex input = some id)
    (hr : r ∈ w.docs) (hid : r.ObjectID = id) (hown : r.Uid = uid) :
    (∀ b, (mutationResolver.DeleteResource env { jwtUser := some uid } input w).1 = .ok b →
        r.Ref.len = 0) ∧
      (0 < r.Ref.len →
        mutationResolver.DeleteResource env { jwtUser := some uid } input w =
          (.error .ErrResourceHasReference, w)) := by
  have hget := getResource_of_owned hu hr hid hown
  have hblocked : 0 < r.Ref.len →
      mutationResolver.DeleteResource env { jwtUser := some uid } input w =
        (.error .ErrResourceHasReference, w) := by
    intro hpos
    simp [mutationResolver.DeleteResource, hin, hget, hpos]
  refine ⟨?_, hblocked⟩
  intro b hb
  by_contra hne
  have hpos : 0 < r.Ref.len := Nat.pos_of_ne_zero hne
  rw [hblocked hpos] at hb
  simp at hb

/-- Witness of C1: deleting resource 1, embedded by memory 10, is refused and
the world stays as it was. -/
theorem delete_refused_when_referenced_witness :
    mutationResolver.DeleteResource scenarioEnv alice hexOne (single referenced) =
      (.error .ErrResourceHasReference, single referenced) :=
  (delete_refused_when_referenced scenarioEnv (single referenced) 7 1 hexOne referenced
    (by simp [UniqueIDs, single]) (by decide) (by simp [single]) rfl rfl).2 (by decide)

theorem deleteResource_docs (env : Env) (w : World) (uid id : primitive.ObjectID) :
    (Svc.DeleteResource env { jwtUser := some uid } id w).2.docs =
      w.docs.eraseP (fun r => decide (r.Uid = uid ∧ r.ObjectID = id ∧ r.Ref = none)) := by
  simp only [Svc.DeleteResource, user.GetUserFromJwt, sto.Delete, mongo.DeleteOne]
  rcases env.stoDelete w.objects (primitive.Hex id) with ⟨⟨suc, err⟩, objs⟩
  cases err <;> cases suc <;> rfl

/-- C2, as the code has it: for a record of the caller whose ref is null,
`Svc.DeleteResource` removes the record before it calls the backend.  When the
backend `Delete` returns an error the call fails with that error, when it
returns false without an error the call fails with `ErrDeleteResource`, and
whatever the backend reports `GetResource` no longer finds the record. -/
theorem delete_removes_record_before_backend (env : Env) (w : World)
    (uid id : primitive.ObjectID) (r : Resource) (suc : Bool) (err : Option String)
    (objs : List String)
    (hu : UniqueIDs w.docs) (hr : r ∈ w.docs) (hid : r.ObjectID = id) (hown : r.Uid = uid)
    (href : r.Ref = none)
    (hdel : env.stoDelete w.objects (primitive.Hex id) = ((suc, err), objs)) :
    (∀ e, err = some e →
        (Svc.DeleteResource env { jwtUser := some uid } id w).1 = .error (.backend e)) ∧
      (err = none → suc = false →
        (Svc.DeleteResource env { jwtUser := some uid } id w).1 = .error .ErrDeleteResource) ∧
      Svc.GetResource { jwtUser := some uid } id
        (Svc.DeleteResource env { jwtUser := some uid } id w).2 = .error .ErrNoDocuments := by
  refine ⟨?_, ?_, ?_⟩
  · intro e he
    subst he
    simp [Svc.DeleteResource, user.GetUserFromJwt, sto.Delete, hdel]
  · intro he hs
    subst he hs
    simp [Svc.DeleteResource, user.GetUserFromJwt, sto.Delete, hdel]
  · have hgone := eraseP_no_id
      (p := fun x => decide (x.Uid = uid ∧ x.ObjectID = id ∧ x.Ref = none)) hu hr
      (by simp [hid, hown, href]) (by
        intro x hx
        simp at hx
        rw [hx.2.1, hid])
    have hnone : (Svc.DeleteResource env { jwtUser := some uid } id w).2.docs.find?
        (fun x => decide (x.Uid = uid ∧ x.ObjectID = id)) = none := by
      rw [deleteResource_docs, List.find?_eq_none]
      intro x hx
      have := hgone x hx
      simp only [decide_eq_true_eq, not_and]
      intro _ h
      exact this (h.trans hid.symm)
    simp only [Svc.GetResource, user.GetUserFromJwt, mongo.FindOne, hnone]

/-- Witness of C2 as amended: with a backend whose `Delete` reports false, the
deletion of the never referenced resource 1 fails with `ErrDeleteResource` and
the record is gone. -/
theorem delete_removes_record_before_backend_witness :
    (Svc.DeleteResource failingDeleteEnv alice 1 (single (reserved 1 7 "a.png" 0))).1 =
        .error .ErrDeleteResource ∧
      Svc.GetResource alice 1
        (Svc.DeleteResource failingDeleteEnv alice 1 (single (reserved 1 7 "a.png" 0))).2 =
        .error .ErrNoDocuments :=
  have h := delete_removes_record_before_backend failingDeleteEnv
    (single (reserved 1 7 "a.png" 0)) 7 1 (reserved 1 7 "a.png" 0) false none [hexOne]
    (by simp [UniqueIDs, single]) (by simp [single]) rfl rfl rfl (by decide)
  ⟨h.2.1 rfl rfl, h.2.2⟩

/-- C2 fails as stated: resource 1 of user 7 has an empty ref and is
retrievable; the backend `Delete` reports false; `Svc.DeleteResource` fails
with `ErrDeleteResource`, and afterwards `GetResource` does not find the
record.  With a backend that returns an error the call fails with that error,
not with `ErrDeleteResource`. -/
theorem delete_backend_failure_counterexample :
    Svc.GetResource alice 1 (single (reserved 1 7 "a.png" 0)) = .ok (reserved 1 7 "a.png" 0) ∧
      (Svc.DeleteResource failingDeleteEnv alice 1 (single (reserved 1 7 "a.png" 0))).1 =
        .error .ErrDeleteResource ∧
      Svc.GetResource alice 1
        (Svc.DeleteResource failingDeleteEnv alice 1 (single (reserved 1 7 "a.png" 0))).2 =
        .error .ErrNoDocuments ∧
      (Svc.DeleteResource erroringDeleteEnv alice 1 (single (reserved 1 7 "a.png" 0))).1 =
        .error (.backend "timeout") := by
  decide

/-- C3 fails on the code: user 7 asks `Svc.DeleteResource` for resource 2,
which user 8 owns, and for resource 1, which memory 10 embeds.  No record
matches the filter and the collection stays as it was, yet the backend `Delete`
is called both times and the stored objects are gone. -/
theorem delete_reaches_backend_without_record :
    Svc.DeleteResource scenarioEnv alice 2 shared =
        (.ok (), { shared with objects := [hexOne], stoCalls := [StoCall.Delete hexTwo] }) ∧
      Svc.DeleteResource scenarioEnv alice 1 shared =
        (.ok (), { shared with objects := [hexTwo], stoCalls := [StoCall.Delete hexOne] }) := by
  decide

/-- C4 fails on the code: memory 10 is edited from embedding `res1.png` to
embedding `res2.png`.  `UpdateReferences` returns no error, but `res2.png`
(added) does not have memory 10 in its ref and `res1.png` (removed) still has
it: the second loop ranges over the added paths. -/
theorem updateReferences_removes_what_it_added :
    (Svc.UpdateReferences scenarioEnv alice "![a](res1.png)" "![b](res2.png)" memoryHex
        album).1 = .ok () ∧
      refOf alice "res2.png"
        (Svc.UpdateReferences scenarioEnv alice "![a](res1.png)" "![b](res2.png)" memoryHex
          album).2 = [] ∧
      refOf alice "res1.png"
        (Svc.UpdateReferences scenarioEnv alice "![a](res1.png)" "![b](res2.png)" memoryHex
          album).2 = [10] := by
  decide

/-- C5 fails on the code: with no resource for `a.png`, and every database
call succeeding, `InsertOrUpdateResource` creates the reserved record, returns
`mongo.ErrNoDocuments` and does not attach memory 10 to its ref. -/
theorem insertOrUpdate_missing_resource_returns_error :
    Svc.InsertOrUpdateResource scenarioEnv alice "a.png" memoryHex blank =
      (.error .ErrNoDocuments,
        { blank with
          docs := [{ reserved 1 7 "a.png" 0 with
            CreateTime := 1700000000, UpdateTime := 1700000000 }],
          nextID := 2 }) := by
  decide

/-- C7 fails on the code: memory 10 embeds `res1.png` only.  Reconciling from
`res1.png` to `res2.png` and back returns no error twice, and afterwards
memory 10 is in no ref at all, while it was in the ref of `res1.png`. -/
theorem updateReferences_round_trip_loses_reference :
    refOf alice "res1.png" album = [10] ∧ refOf alice "res2.png" album = [] ∧
      (Svc.UpdateReferences scenarioEnv alice "![a](res1.png)" "![b](res2.png)" memoryHex
        album).1 = .ok () ∧
      (Svc.UpdateReferences scenarioEnv alice "![b](res2.png)" "![a](res1.png)" memoryHex
        (Svc.UpdateReferences scenarioEnv alice "![a](res1.png)" "![b](res2.png)" memoryHex
          album).2).1 = .ok () ∧
      refOf alice "res1.png"
        (Svc.UpdateReferences scenarioEnv alice "![b](res2.png)" "![a](res1.png)" memoryHex
          (Svc.UpdateReferences scenarioEnv alice "![a](res1.png)" "![b](res2.png)" memoryHex
            album).2).2 = [] ∧
      refOf alice "res2.png"
        (Svc.UpdateReferences scenarioEnv alice "![b](res2.png)" "![a](res1.png)" memoryHex
          (Svc.UpdateReferences scenarioEnv alice "![a](res1.png)" "![b](res2.png)" memoryHex
            album).2).2 = [] := by
  decide

/-- C8 fails on the code: with no resource for `a.png`, one call of
`InsertOrUpdateResource` leaves the ref of the new record empty, and a second
call in a row puts memory 10 into it. -/
theorem insertOrUpdate_twice_differs_from_once :
    refOf alice "a.png"
        (Svc.InsertOrUpdateResource scenarioEnv alice "a.png" memoryHex blank).2 = [] ∧
      refOf alice "a.png"
        (Svc.InsertOrUpdateResource scenarioEnv alice "a.png" memoryHex
          (Svc.InsertOrUpdateResource scenarioEnv alice "a.png" memoryHex blank).2).2 =
        [10] := by
  decide

/-- C6: the reservation `NewResource(path, 0)` of an authenticated caller.
Let `r` be the record `FindOne` selects for (caller, path): the first one in
the collection, the only one when (owner, path) is unique.  If `r` has size 0
its id is returned and the world is unchanged; if `r` has a positive size the
call fails with `ErrResourceExist` and the world is unchanged; if there is no
record, exactly one record is appended, with this owner and path, size 0 and
empty ref, and its id is returned.  So a second reservation in a row returns
the same id, and once `UpdateResourceSize` has set a positive size (which it
does without error) the next reservation fails with `ErrResourceExist`. -/
theorem reserve_cases (env : Env) (w : World) (uid : primitive.ObjectID) (path : String) :
    (∀ pre r post, w.docs = pre ++ r :: post →
        (∀ x ∈ pre, ¬(x.Uid = uid ∧ x.Path = path)) → r.Uid = uid → r.Path = path →
        r.Size = 0 →
        Svc.NewResource env { jwtUser := some uid } path 0 w =
          (.ok (primitive.Hex r.ObjectID), w)) ∧
      (∀ pre r post, w.docs = pre ++ r :: post →
        (∀ x ∈ pre, ¬(x.Uid = uid ∧ x.Path = path)) → r.Uid = uid → r.Path = path →
        0 < r.Size →
        Svc.NewResource env { jwtUser := some uid } path 0 w =
          (.error .ErrResourceExist, w)) ∧
      ((∀ x ∈ w.docs, ¬(x.Uid = uid ∧ x.Path = path)) →
        ∃ r : Resource, r.ObjectID = w.nextID ∧ r.Uid = uid ∧ r.Path = path ∧ r.Size = 0 ∧
          r.Ref.len = 0 ∧
          Svc.NewResource env { jwtUser := some uid } path 0 w =
            (.ok (primitive.Hex r.ObjectID),
              { w with docs := w.docs ++ [r], nextID := w.nextID + 1 })) ∧
      (∀ id w1, Svc.NewResource env { jwtUser := some uid } path 0 w = (.ok id, w1) →
        Svc.NewResource env { jwtUser := some uid } path 0 w1 = (.ok id, w1)) ∧
      (w.WF → ∀ id w1 size,
        Svc.NewResource env { jwtUser := some uid } path 0 w = (.ok id, w1) → 0 < size →
        ∃ w2,
          Svc.UpdateResourceSize env { jwtUser := some uid } path size w1 = (.ok (), w2) ∧
          Svc.NewResource env { jwtUser := some uid } path 0 w2 =
            (.error .ErrResourceExist, w2)) := by
  have hfirst : ∀ pre r post, w.docs = pre ++ r :: post →
      (∀ x ∈ pre, ¬(x.Uid = uid ∧ x.Path = path)) → r.Uid = uid → r.Path = path →
      w.docs.find? (fun r => decide (r.Path = path ∧ r.Uid = uid)) = some r := by
    intro pre r post hd hpre hu hp
    apply find?_first hd
    · intro x hx
      have := hpre x hx
      simp only [decide_eq_false_iff_not]
      tauto
    · simp [hu, hp]
  refine ⟨?_, ?_, ?_, ?_, ?_⟩
  · intro pre r post hd hpre hu hp hs
    rw [newResource_eq, hfirst pre r post hd hpre hu hp]
    simp [hs]
  · intro pre r post hd hpre hu hp hs
    rw [newResource_eq, hfirst pre r post hd hpre hu hp]
    simp [hs]
  · intro hno
    have hnone : w.docs.find? (fun r => decide (r.Path = path ∧ r.Uid = uid)) = none := by
      rw [List.find?_eq_none]
      intro x hx
      have := hno x hx
      simp only [decide_eq_true_eq]
      tauto
    refine ⟨⟨w.nextID, uid, path, 0, none, env.now, env.now⟩, rfl, rfl, rfl, rfl, rfl, ?_⟩
    rw [newResource_eq, hnone]
  · intro id w1 h
    rw [newResource_eq] at h
    cases hf : w.docs.find? (fun r => decide (r.Path = path ∧ r.Uid = uid)) with
    | some exist =>
      rw [hf] at h
      by_cases hs : exist.Size > 0
      · simp [hs] at h
      · simp only [hs, if_false, Prod.mk.injEq, Except.ok.injEq] at h
        obtain ⟨h1, h2⟩ := h
        subst h1 h2
        rw [newResource_eq, hf]
        simp [hs]
    | none =>
      rw [hf] at h
      simp only [Prod.mk.injEq, Except.ok.injEq] at h
      obtain ⟨h1, h2⟩ := h
      subst h1 h2
      have hf2 := find?_snoc (r := ⟨w.nextID, uid, path, 0, none, env.now, env.now⟩) hf
        (by simp)
      rw [newResource_eq]
      simp only [hf2]
      simp
  · intro hwf id w1 size h hs
    rw [newResource_eq] at h
    cases hf : w.docs.find? (fun r => decide (r.Path = path ∧ r.Uid = uid)) with
    | some exist =>
      rw [hf] at h
      by_cases hs2 : exist.Size > 0
      · simp [hs2] at h
      · simp only [hs2, if_false, Prod.mk.injEq, Except.ok.injEq] at h
        obtain ⟨_, h2⟩ := h
        subst h2
        exact conflict_after_size hwf.1 hf hs
    | none =>
      rw [hf] at h
      simp only [Prod.mk.injEq, Except.ok.injEq] at h
      obtain ⟨_, h2⟩ := h
      subst h2
      refine conflict_after_size
        (e := ⟨w.nextID, uid, path, 0, none, env.now, env.now⟩)
        (uniqueIDs_insert hwf.1 hwf.2 rfl) ?_ hs
      exact find?_snoc hf (by simp)

/-- Witness of C6: in an empty collection the reservation of `img.png` creates
record 1; a second reservation returns the same id; after a size of 12 is set
the third one is refused.  An existing record of size 0 gives its id, one of
size 5 gives `ErrResourceExist`. -/
theorem reserve_cases_witness :
    (∃ w1, Svc.NewResource scenarioEnv alice "img.png" 0 blank = (.ok hexOne, w1) ∧
        Svc.NewResource scenarioEnv alice "img.png" 0 w1 = (.ok hexOne, w1) ∧
        ∃ w2, Svc.UpdateResourceSize scenarioEnv alice "img.png" 12 w1 = (.ok (), w2) ∧
          Svc.NewResource scenarioEnv alice "img.png" 0 w2 = (.error .ErrResourceExist, w2)) ∧
      Svc.NewResource scenarioEnv alice "a.png" 0 (single (reserved 1 7 "a.png" 0)) =
        (.ok hexOne, single (reserved 1 7 "a.png" 0)) ∧
      Svc.NewResource scenarioEnv alice "a.png" 0 (single referenced) =
        (.error .ErrResourceExist, single referenced) := by
  have hb := reserve_cases scenarioEnv blank 7 "img.png"
  have hfresh : ∀ x ∈ blank.docs, ¬(x.Uid = 7 ∧ x.Path = "img.png") := by simp [blank]
  have hwf : blank.WF := by simp [World.WF, UniqueIDs, blank]
  obtain ⟨r, hid, _, _, _, _, hnew⟩ := hb.2.2.1 hfresh
  have hhex : primitive.Hex r.ObjectID = hexOne := by rw [hid]; decide
  rw [hhex] at hnew
  refine ⟨⟨_, hnew, hb.2.2.2.1 _ _ hnew, hb.2.2.2.2 hwf _ _ 12 hnew (by decide)⟩, ?_, ?_⟩
  · exact (reserve_cases scenarioEnv (single (reserved 1 7 "a.png" 0)) 7 "a.png").1
      [] (reserved 1 7 "a.png" 0) [] rfl (by simp) rfl rfl rfl
  · exact (reserve_cases scenarioEnv (single referenced) 7 "a.png").2.1
      [] referenced [] rfl (by simp) rfl rfl (by decide)

/-- C9: for a file name `CheckFileName` accepts and an authenticated owner
whose user and plan lookups succeed, with `used` the `int64` sum of the sizes
of the resources of the owner (the exact sum whenever that fits in `int64`):
`GetToken` fails with `ErrResourceSizeLimit` exactly when `used > capacity`,
and then the world is unchanged, so no token was requested and no record
reserved.  When `used <= capacity` and the backend issues a token and the
reservation succeeds, the token is returned with its `ID` set to the id of a
record of the owner for the checked name. -/
theorem getToken_quota (env : Env) (w : World) (uid : primitive.ObjectID)
    (fileName newFileName : String) (u : User) (subscribe : Subscribe)
    (hname : env.CheckFileName fileName = (true, newFileName))
    (huser : env.GetUser uid = .ok u) (hu : u.ObjectID = uid)
    (hplan : env.Subscribe u = .ok subscribe) :
    ((mutationResolver.GetToken env { jwtUser := some uid } fileName w).1 =
        .error .ErrResourceSizeLimit ↔
        wrapInt64 (totalUsedBytes uid w) > subscribe.Capacity) ∧
      (wrapInt64 (totalUsedBytes uid w) > subscribe.Capacity →
        (mutationResolver.GetToken env { jwtUser := some uid } fileName w).2 = w) ∧
      (wrapInt64 (totalUsedBytes uid w) ≤ subscribe.Capacity →
        ∀ tok rid w2, env.stoGetToken newFileName = .ok tok →
          Svc.NewResource env { jwtUser := some uid } newFileName 0
            (tokenRequested newFileName w) = (.ok rid, w2) →
          mutationResolver.GetToken env { jwtUser := some uid } fileName w =
            (.ok { tok with ID := rid }, w2) ∧
          ∃ r ∈ w2.docs, r.Uid = uid ∧ r.Path = newFileName ∧
            primitive.Hex r.ObjectID = rid) ∧
      (-(2 ^ 63) ≤ totalUsedBytes uid w → totalUsedBytes uid w < 2 ^ 63 →
        wrapInt64 (totalUsedBytes uid w) = totalUsedBytes uid w) := by
  have heq := getToken_eq (w := w) hname huser hu hplan
  refine ⟨⟨?_, ?_⟩, ?_, ?_, wrapInt64_of_range _⟩
  · intro h
    by_contra hle
    rw [heq, if_neg hle] at h
    cases ht : env.stoGetToken newFileName with
    | error err =>
      rw [ht] at h
      simp at h
    | ok tok =>
      rw [ht] at h
      rcases hn : Svc.NewResource env { jwtUser := some uid } newFileName 0
        (tokenRequested newFileName w) with ⟨res, w2⟩
      rw [hn] at h
      cases res with
      | error e =>
        have := newResource_error hn
        subst this
        simp at h
      | ok rid => simp at h
  · intro hgt
    rw [heq, if_pos hgt]
  · intro hgt
    rw [heq, if_pos hgt]
  · intro hle tok rid w2 ht hn
    have hle2 : ¬ wrapInt64 (totalUsedBytes uid w) > subscribe.Capacity := not_lt.mpr hle
    refine ⟨?_, newResource_record hn⟩
    rw [heq, if_neg hle2, ht]
    simp only [hn]

/-- Witness of C9: with a plan of 1000 bytes, an owner using 1001 bytes is
refused and nothing changes; an owner using exactly 1000 bytes gets the token,
with the id of the record reserved for `x.png`. -/
theorem getToken_quota_witness :
    ((mutationResolver.GetToken scenarioEnv alice "x.png" (holding 1001)).1 =
        .error .ErrResourceSizeLimit ∧
      (mutationResolver.GetToken scenarioEnv alice "x.png" (holding 1001)).2 = holding 1001) ∧
      ∃ w2, mutationResolver.GetToken scenarioEnv alice "x.png" (holding 1000) =
        (.ok { ID := hexTwo, credentials := "session-x.png" }, w2) := by
  have hover := getToken_quota scenarioEnv (holding 1001) 7 "x.png" "x.png" ⟨7⟩ ⟨1000⟩
    (by decide) rfl rfl rfl
  have hat := getToken_quota scenarioEnv (holding 1000) 7 "x.png" "x.png" ⟨7⟩ ⟨1000⟩
    (by decide) rfl rfl rfl
  refine ⟨⟨hover.1.2 (by decide), hover.2.1 (by decide)⟩, ?_⟩
  exact ⟨(Svc.NewResource scenarioEnv alice "x.png" 0 (tokenRequested "x.png" (holding 1000))).2,
    (hat.2.2.1 (by decide) ⟨"", "session-x.png"⟩ hexTwo
      (Svc.NewResource scenarioEnv alice "x.png" 0 (tokenRequested "x.png" (holding 1000))).2
      rfl (by decide)).1⟩

theorem insertUrlLoop_fails (env : Env) (pre post : List String) (ref msg : String)
    (content : String) (hpre : ∀ x ∈ pre, ∃ url, env.stoGetUrl x = .ok url)
    (hfail : env.stoGetUrl ref = .error msg) :
    Svc.insertUrlLoop env (pre ++ ref :: post) content = .error (.backend msg) := by
  induction pre generalizing content with
  | nil => simp [Svc.insertUrlLoop, hfail]
  | cons x xs ih =>
    obtain ⟨url, hurl⟩ := hpre x (List.mem_cons_self x xs)
    simp only [List.cons_append, Svc.insertUrlLoop, hurl]
    exact ih _ (fun y hy => hpre y (List.mem_cons_of_mem x hy))

theorem insertUrlLoop_resolved (env : Env) (url : String → String) (refs : List String)
    (content : String) (hall : ∀ x ∈ refs, env.stoGetUrl x = .ok (url x)) :
    Svc.insertUrlLoop env refs content =
      .ok (refs.foldl (fun c ref => strings.ReplaceAll c ref (url ref)) content) := by
  induction refs generalizing content with
  | nil => simp [Svc.insertUrlLoop]
  | cons x xs ih =>
    simp only [Svc.insertUrlLoop, hall x (List.mem_cons_self x xs), List.foldl]
    exact ih _ (fun y hy => hall y (List.mem_cons_of_mem x hy))

/-- C10, as the code has it: `InsertResourceUrl` resolves the references of
the content in extraction order.  At the first reference whose URL the backend
cannot resolve the call fails with the error of the backend and returns no
content.  When every reference resolves, the call returns, without error, the
content in which the references were replaced by their URLs one after the
other. -/
theorem insertResourceUrl_stops_at_unresolved (env : Env) (content : String) :
    (∀ pre ref post msg, env.PickupReferences content = pre ++ ref :: post →
        (∀ x ∈ pre, ∃ url, env.stoGetUrl x = .ok url) → env.stoGetUrl ref = .error msg →
        Svc.InsertResourceUrl env content = .error (.backend msg)) ∧
      (∀ url : String → String,
        (∀ x ∈ env.PickupReferences content, env.stoGetUrl x = .ok (url x)) →
        Svc.InsertResourceUrl env content =
          .ok ((env.PickupReferences content).foldl
            (fun c ref => strings.ReplaceAll c ref (url ref)) content)) := by
  constructor
  · intro pre ref post msg hrefs hpre hfail
    unfold Svc.InsertResourceUrl
    rw [hrefs]
    exact insertUrlLoop_fails env pre post ref msg content hpre hfail
  · intro url hall
    exact insertUrlLoop_resolved env url _ content hall

/-- Witness of C10 as amended: `res2.png` cannot be resolved and the read
fails; with the scenario backend both references are replaced. -/
theorem insertResourceUrl_stops_at_unresolved_witness :
    Svc.InsertResourceUrl unresolvedUrlEnv "![a](res1.png) ![b](res2.png)" =
        .error (.backend "no such object") ∧
      Svc.InsertResourceUrl scenarioEnv "![a](res1.png) ![b](res2.png)" =
        .ok "![a](https://cdn.test/res1.png) ![b](https://cdn.test/res2.png)" :=
  ⟨(insertResourceUrl_stops_at_unresolved unresolvedUrlEnv "![a](res1.png) ![b](res2.png)").1
      ["res1.png"] "res2.png" [] "no such object" (by decide)
      (by intro x hx; rw [List.mem_singleton] at hx; subst hx; exact ⟨_, rfl⟩) (by decide),
    ((insertResourceUrl_stops_at_unresolved scenarioEnv "![a](res1.png) ![b](res2.png)").2
      (fun ref => "https://cdn.test/" ++ ref) (fun _ _ => rfl)).trans (by decide)⟩

/-- C10 fails as stated: the URL of `res2.png` cannot be resolved, and
`InsertResourceUrl` returns the error of the backend instead of the content
with the token `res2.png` left in place. -/
theorem insertResourceUrl_counterexample :
    unresolvedUrlEnv.stoGetUrl "res1.png" = .ok "https://cdn.test/res1.png" ∧
      unresolvedUrlEnv.stoGetUrl "res2.png" = .error "no such object" ∧
      Svc.InsertResourceUrl unresolvedUrlEnv "![a](res1.png) ![b](res2.png)" ≠
        .ok "![a](https://cdn.test/res1.png) ![b](res2.png)" ∧
      Svc.InsertResourceUrl unresolvedUrlEnv "![a](res1.png) ![b](res2.png)" =
        .error (.backend "no such object") := by
  decide
